import Mathlib

/-!
Verification of the bjx_crawl repository: a shallow embedding in Lean of the
incremental crawl engine, the date parsing, the merge and dedup stage, the
fetch retry loops, and the finalize logic of the two main entry points.
All definitions are translated from the Python sources
crawl_bjx_qn_incremental.py, crawl_bjx_qn.py and crawl_bjx_qn_incremental_ci.py.
-/

namespace BjxCrawl

/-- An article record as built by parse_articles: the three string fields
title, date and url. The url is the dedup key. -/
structure Article where
  title : String
  date : String
  url : String
deriving DecidableEq, Repr

/-- A naive datetime value with year, month, day, hour, minute, second,
modelling the Python datetime objects produced by datetime.strptime.
All datetimes compared in the source carry the same timezone, either
none in the sort key of merge_articles or UTC in parse_article_date, so
the timezone component is omitted and comparison is lexicographic on the
six numeric components, exactly as Python compares datetimes of one
timezone. -/
structure DateTime where
  y : Nat
  m : Nat
  d : Nat
  h : Nat
  mi : Nat
  s : Nat
deriving DecidableEq, Repr

/-- Python datetime.min, the value 0001-01-01 00:00:00. -/
def dtMin : DateTime := ⟨1, 1, 1, 0, 0, 0⟩

/-- Order embedding of a datetime into Nat by a mixed radix encoding.
Each radix strictly exceeds the bound of its component for values that
arise from the parsers, month at most 12, day at most 31, hour at most
23, minute and second at most 59, so on such values the Nat order agrees
with the lexicographic datetime order (proved in dtKey_le_iff below). -/
def dtKey (t : DateTime) : Nat :=
  ((((t.y * 13 + t.m) * 32 + t.d) * 24 + t.h) * 60 + t.mi) * 60 + t.s

/-- Strict lexicographic order on datetimes, the order Python uses to
compare two datetime objects with equal timezone awareness. -/
def dtLt (a b : DateTime) : Prop :=
  a.y < b.y ∨ (a.y = b.y ∧ (a.m < b.m ∨ (a.m = b.m ∧
    (a.d < b.d ∨ (a.d = b.d ∧ (a.h < b.h ∨ (a.h = b.h ∧
      (a.mi < b.mi ∨ (a.mi = b.mi ∧ a.s < b.s)))))))))

instance : ∀ a b : DateTime, Decidable (dtLt a b) := fun a b => by
  unfold dtLt; exact inferInstance

/-- Non strict datetime order, the negation of the reversed strict order,
as for any total order. -/
def dtLe (a b : DateTime) : Prop := ¬ dtLt b a

instance : ∀ a b : DateTime, Decidable (dtLe a b) := fun a b => by
  unfold dtLe; exact inferInstance

/-- Components lie in the ranges guaranteed for every datetime built by
the date parsers below. -/
def DateTime.InRange (t : DateTime) : Prop :=
  t.m ≤ 12 ∧ t.d ≤ 31 ∧ t.h ≤ 23 ∧ t.mi ≤ 59 ∧ t.s ≤ 59


/-! ### Date string parsing

Models datetime.strptime with the two formats used in the source, the
plain date format YYYY-MM-DD and the combined format
YYYY-MM-DD HH:MM:SS. The Python strptime regular expressions accept the
year as exactly four digits, month and day and the time fields as one or
two digits within their ranges, and the datetime constructor then
rejects year zero, a day beyond the length of the month, and out of
range time fields. Digits are modelled as ASCII digits and whitespace as
the ASCII whitespace characters, matching all inputs this crawler
produces. -/

/-- Splitting a character list at every occurrence of a separator,
the behaviour of the Python split performed by the strptime regular
expressions with a fixed single character delimiter. Structural
recursion keeps this kernel reducible. -/
def splitOnCh (sep : Char) : List Char → List (List Char)
  | [] => [[]]
  | c :: rest =>
    if c = sep then [] :: splitOnCh sep rest
    else
      match splitOnCh sep rest with
      | h :: t => (c :: h) :: t
      | [] => [[c]]

/-- Numeric value of a list of ASCII digit characters. -/
def digitsToNat (cs : List Char) : Nat :=
  cs.foldl (fun acc c => acc * 10 + (c.toNat - 48)) 0

/-- The strptime year field: exactly four digits. -/
def parseYearSeg (cs : List Char) : Option Nat :=
  if cs.length = 4 ∧ cs.all Char.isDigit then some (digitsToNat cs) else none

/-- A strptime numeric field of one or two digits whose value lies
between lo and hi, as the month, day, hour, minute and second regular
expressions demand (the regular expression for seconds also admits 60
and 61 but the datetime constructor rejects them, so the combined
outcome is a bound of 59). -/
def parseBoundedSeg (cs : List Char) (lo hi : Nat) : Option Nat :=
  if 1 ≤ cs.length ∧ cs.length ≤ 2 ∧ cs.all Char.isDigit then
    if lo ≤ digitsToNat cs ∧ digitsToNat cs ≤ hi then some (digitsToNat cs)
    else none
  else none

/-- Gregorian leap year rule used by the datetime constructor. -/
def isLeapYear (y : Nat) : Bool :=
  y % 4 == 0 && (y % 100 != 0 || y % 400 == 0)

/-- Length of a month, as validated by the datetime constructor. -/
def daysInMonth (y m : Nat) : Nat :=
  if m == 2 then (if isLeapYear y then 29 else 28)
  else if m == 4 || m == 6 || m == 9 || m == 11 then 30
  else 31

/-- strptime with format YYYY-MM-DD over a character list, including the
datetime constructor validation of year at least one and day within the
month. -/
def parseYmdCore (cs : List Char) : Option DateTime :=
  match splitOnCh '-' cs with
  | [ys, ms, ds] =>
    match parseYearSeg ys, parseBoundedSeg ms 1 12, parseBoundedSeg ds 1 31 with
    | some y, some m, some d =>
      if 1 ≤ y ∧ d ≤ daysInMonth y m then some ⟨y, m, d, 0, 0, 0⟩ else none
    | _, _, _ => none
  | _ => none

/-- strptime with format YYYY-MM-DD. -/
def parse_ymd (s : String) : Option DateTime :=
  parseYmdCore s.data

/-- ASCII whitespace, the characters matched by the whitespace class of
the strptime regular expression on the inputs this crawler sees. -/
def isSpaceCh (c : Char) : Bool :=
  c == ' ' || c == '\t' || c == '\n' || c == '\r'

/-- strptime with format YYYY-MM-DD HH:MM:SS. A literal space in a
strptime format matches one or more whitespace characters, so the input
is cut at the first whitespace run; the date part must match the plain
date format and the time part must be HH:MM:SS with the field bounds
described above. -/
def parse_ymd_hms (s : String) : Option DateTime :=
  let cs := s.data
  let dateCs := cs.takeWhile (fun c => !isSpaceCh c)
  let rest := cs.dropWhile (fun c => !isSpaceCh c)
  let wsRun := rest.takeWhile isSpaceCh
  let timeCs := rest.dropWhile isSpaceCh
  if wsRun.isEmpty then none else
  match parseYmdCore dateCs with
  | none => none
  | some dt =>
    match splitOnCh ':' timeCs with
    | [hs, mins, ss] =>
      match parseBoundedSeg hs 0 23, parseBoundedSeg mins 0 59,
            parseBoundedSeg ss 0 59 with
      | some h, some mi, some sec => some { dt with h := h, mi := mi, s := sec }
      | _, _, _ => none
    | _ => none

/-- parse_article_date from crawl_bjx_qn_incremental.py: try the plain
date format, then the date plus time format, and return none when both
fail. The source attaches the UTC timezone to the result; since every
comparison against the result is with another UTC datetime, the
timezone is dropped here. -/
def parse_article_date (s : String) : Option DateTime :=
  match parse_ymd s with
  | some d => some d
  | none => parse_ymd_hms s

/-- is_article_newer_than_cutoff from crawl_bjx_qn_incremental.py: an
article with an unparseable date counts as newer; otherwise the parsed
date must be strictly later than the cutoff. -/
def is_article_newer_than_cutoff (dateStr : String) (cutoff : DateTime) : Bool :=
  match parse_article_date dateStr with
  | none => true
  | some d => decide (dtLt cutoff d)

/-! ### Merge and dedup stage, merge_articles in crawl_bjx_qn_incremental.py -/

/-- The set of urls of the existing articles, built as a Python set
comprehension; modelled as the url list, whose membership is the set
membership the source tests. -/
def existing_urls (existing : List Article) : List String :=
  existing.map (fun a => a.url)

/-- The loop of merge_articles that keeps exactly the new articles whose
url is not in the set of existing urls. The set is built once before
the loop and never extended inside it, so only membership in the
original existing urls is tested. -/
def unique_new_articles (existing new_arts : List Article) : List Article :=
  new_arts.filter (fun a => !(existing_urls existing).contains a.url)

/-- The sort key used inside merge_articles: strptime with the plain
date format only, with datetime.min when parsing fails. The mixed radix
Nat encoding stands for the datetime value; the minimum datetime has
the least key among parsed values because parsed years are at least
one. -/
def sort_key (a : Article) : Nat :=
  match parse_ymd a.date with
  | some d => dtKey d
  | none => dtKey dtMin

/-- The comparison realised by the Python stable sort with the key
function sort_key and reverse set to true: a record may precede another
exactly when its key is not smaller. -/
def mergeRel (a b : Article) : Prop := sort_key b ≤ sort_key a

instance : DecidableRel mergeRel :=
  fun a b => Nat.decLe (sort_key b) (sort_key a)

instance : IsTotal Article mergeRel :=
  ⟨fun a b => Nat.le_total (sort_key b) (sort_key a)⟩

instance : IsTrans Article mergeRel :=
  ⟨fun _ _ _ hab hbc => Nat.le_trans hbc hab⟩

/-- merge_articles from crawl_bjx_qn_incremental.py: drop the new
articles whose url already occurs among the existing urls, concatenate,
and sort descending by parsed date with a stable sort. The Python list
sort with reverse set to true is a stable descending sort, which
insertionSort with mergeRel realises exactly: an earlier element stays
before a later one unless its key is strictly smaller. -/
def merge_articles (existing new_arts : List Article) : List Article :=
  List.insertionSort mergeRel (existing ++ unique_new_articles existing new_arts)


/-! ### Page parser, parse_articles in crawl_bjx_qn_incremental.py

The HTML traversal itself is performed by the external BeautifulSoup
library; what the source reads from each list item is the link presence,
the stripped title attribute, the stripped link text, the raw href
attribute, the absolute url that urljoin computes from the page url and
the href (urljoin is external, so the resolved url accompanies the
item), and the stripped text of the date span, empty when the span is
missing. parse_articles then runs the per item pipeline of checks and
the inline cutoff filter, which is what the claims are about. -/

/-- The fields the per item loop of parse_articles reads from one list
item of a listing page. -/
structure Item where
  hasLink : Bool
  titleAttr : String
  textContent : String
  href : String
  resolvedUrl : String
  dateText : String
deriving DecidableEq, Repr

/-- The Python strip call on the title attribute: remove whitespace
from both ends, written structurally over the character list. -/
def strTrim (s : String) : String :=
  String.mk (((s.data.dropWhile isSpaceCh).reverse.dropWhile isSpaceCh).reverse)

/-- The body of the per item loop of parse_articles: skip items without
a link, compute the title from the stripped title attribute with the
link text as fallback, skip items without an href, read the date from
the span text, skip items with an empty title or url, and when a cutoff
is given and the date is nonempty drop articles that are not newer than
the cutoff. -/
def process_item (cutoff : Option DateTime) (it : Item) : Option Article :=
  if !it.hasLink then none
  else
    let title0 := strTrim it.titleAttr
    let title := if title0 = "" then it.textContent else title0
    if it.href = "" then none
    else
      let url := it.resolvedUrl
      let date := it.dateText
      if title = "" ∨ url = "" then none
      else
        match cutoff with
        | some c =>
          if date ≠ "" ∧ is_article_newer_than_cutoff date c = false then none
          else some ⟨title, date, url⟩
        | none => some ⟨title, date, url⟩

/-- parse_articles from crawl_bjx_qn_incremental.py, applied to the
items extracted from one page. A page whose expected container or list
is missing yields the empty item list. -/
def parse_articles (items : List Item) (cutoff : Option DateTime) :
    List Article :=
  items.filterMap (process_item cutoff)

/-! ### Incremental crawl engine, crawl_incremental in
crawl_bjx_qn_incremental.py

The network is modelled as a site function from a url to the fetch
outcome for that url: none when fetch_html raises after exhausting its
retries, otherwise the items of the page together with the next page
url that get_next_page_url extracts, none when pagination ends.
parse_articles and get_next_page_url never raise in the source, both
catch their exceptions internally, so the only exception reaching the
try block of the loop is the fetch failure. The loop variable
found_old_articles of the source is initialised false and never set, so
it does not constrain the loop and is omitted. Pages are counted on
entry to the loop body, and the loop runs while the current url is a
nonempty string and the page count is below max_pages. -/

/-- One fetched page: its extracted items and the next page url. -/
abbrev Site := String → Option (List Item × Option String)

/-- The crawl loop. The fuel argument is the number of loop iterations
the page cap still allows, max_pages minus the pages already counted;
the result is the accumulated article list and the number of pages
fetched. -/
def crawlGo (site : Site) (cutoff : Option DateTime) :
    Nat → String → List Article → List Article × Nat
  | 0, _, acc => (acc, 0)
  | fuel + 1, url, acc =>
    if url = "" then (acc, 0)
    else
      match site url with
      | none => (acc, 1)
      | some (items, next) =>
        let pageArticles := parse_articles items cutoff
        if pageArticles = [] ∧ cutoff.isSome then (acc, 1)
        else
          let acc2 := acc ++ pageArticles
          match next with
          | none => (acc2, 1)
          | some nurl =>
            let rest := crawlGo site cutoff fuel nurl acc2
            (rest.1, rest.2 + 1)

/-- crawl_incremental from crawl_bjx_qn_incremental.py. -/
def crawl_incremental (site : Site) (startUrl : String)
    (cutoff : Option DateTime) (maxPages : Nat) : List Article × Nat :=
  crawlGo site cutoff maxPages startUrl []

/-- A nonempty url naming page index i, for building concrete sites. -/
def urlOf (i : Nat) : String :=
  String.mk (List.replicate (i + 1) 'p')

/-- A linear site built from a list of per page outcomes: page i is
reached under the url urlOf i, a none entry makes the fetch of that
page fail, and every page links to the next index while one exists. -/
def siteOf (pages : List (Option (List Item))) : Site := fun u =>
  match pages.get? (u.length - 1) with
  | some (some items) =>
    some (items,
      if u.length < pages.length then some (urlOf u.length) else none)
  | some none => none
  | none => none

/-! ### Page fetchers

fetch_html exists twice, in crawl_bjx_qn_incremental.py with five
retries by default and in crawl_bjx_qn.py with three. The network is
modelled as a function from the attempt index to this attempt
outcome: a successful HTTP response with its body text, or one of the
exception classes the source distinguishes. The three exception
branches of the incremental version differ only in their backoff sleep
durations and messages, which do not affect the returned value. A
result of error stands for the exception that the Python function lets
escape after the retry budget is spent. -/

/-- The outcome of one HTTP attempt. -/
inductive FetchOutcome where
  | success (body : String)
  | connectTimeoutErr
  | readTimeoutErr
  | requestErr
deriving DecidableEq, Repr

/-- The retry loop of fetch_html in crawl_bjx_qn_incremental.py. The
argument left counts the attempts still available, so the current
attempt index is retries minus left; the test of the source comparing
the attempt index with retries minus one is the test whether left
exceeds one. A response body below one hundred characters is retried
while attempts remain, but on the final attempt the source falls
through the warning and returns the short body. -/
def fetchIncGo (env : Nat → FetchOutcome) (retries : Nat) :
    Nat → Except String String
  | 0 => .error "no attempts"
  | left + 1 =>
    match env (retries - (left + 1)) with
    | .success body =>
      if body.length < 100 then
        if 0 < left then fetchIncGo env retries left
        else .ok body
      else .ok body
    | .connectTimeoutErr =>
      if 0 < left then fetchIncGo env retries left
      else .error "Connection timeout after attempts"
    | .readTimeoutErr =>
      if 0 < left then fetchIncGo env retries left
      else .error "Read timeout after attempts"
    | .requestErr =>
      if 0 < left then fetchIncGo env retries left
      else .error "Failed to fetch after attempts"

/-- fetch_html from crawl_bjx_qn_incremental.py, with the network
modelled by env. -/
def fetch_html_incremental (env : Nat → FetchOutcome) (retries : Nat) :
    Except String String :=
  fetchIncGo env retries retries

/-- The fixed list of blocking indicator substrings scanned by
fetch_html in crawl_bjx_qn.py. -/
def blockingPhrases : List String :=
  ["captcha", "access denied", "not available", "request blocked",
   "anti-bot", "cloudflare", "验证", "拒绝访问", "非法请求", "robot"]

/-- Substring test on character lists, the Python in operator on
strings. -/
def isSubOf (pat : List Char) : List Char → Bool
  | [] => pat.isEmpty
  | c :: cs => pat.isPrefixOf (c :: cs) || isSubOf pat cs

/-- The Python lower call on the body before the blocking scan; the
source content is ASCII or Chinese, where Python lowercasing agrees
with ASCII lowercasing. -/
def toLowerStr (s : String) : String :=
  String.mk (s.data.map Char.toLower)

/-- The blocking test of fetch_html in crawl_bjx_qn.py. -/
def hasBlockingPhrase (body : String) : Bool :=
  blockingPhrases.any (fun p => isSubOf p.data (toLowerStr body).data)

/-- The retry loop of fetch_html in crawl_bjx_qn.py. A short body or a
detected blocking phrase raises a RequestException inside the try
block, so both are retried like transport failures and the last attempt
propagates the exception. The container presence check of the source
only logs a warning and is omitted. -/
def fetchLegacyGo (env : Nat → FetchOutcome) (retries : Nat) :
    Nat → Except String String
  | 0 => .error "no attempts"
  | left + 1 =>
    match env (retries - (left + 1)) with
    | .success body =>
      if body.length < 100 then
        if 0 < left then fetchLegacyGo env retries left
        else .error "Response too short - possible block"
      else if hasBlockingPhrase body then
        if 0 < left then fetchLegacyGo env retries left
        else .error "Blocked by target website"
      else .ok body
    | _ =>
      if 0 < left then fetchLegacyGo env retries left
      else .error "request failed"

/-- fetch_html from crawl_bjx_qn.py, with the network modelled by
env. -/
def fetch_html_legacy (env : Nat → FetchOutcome) (retries : Nat) :
    Except String String :=
  fetchLegacyGo env retries retries

/-! ### Crawl state and the finalize logic of the two entry points -/

/-- The persisted crawl state, the object of crawl_state.json. The
lastError field only exists in the CI script, absent elsewhere. -/
structure CrawlState where
  lastCrawlTime : Option String
  totalArticlesCrawled : Nat
  firstRun : Bool
  lastError : Option String
deriving DecidableEq, Repr

/-- The default state returned by load_crawl_state when the state file
is absent or corrupt. -/
def defaultCrawlState : CrawlState := ⟨none, 0, true, none⟩

/-- The tail of main in crawl_bjx_qn_incremental.py, from choosing the
final article list to saving the state: on a first run the final list
is the crawl result, otherwise the merge of the loaded existing
articles with the crawl result. An empty final list on a first run
exits with an error and no output; an empty final list on a later run
refreshes the timestamp and the firstRun flag but writes no article
files. Otherwise the files are written and the state records the
timestamp, the size of the final list, and firstRun false. The first
component of the result is the final article set handed to the output
writers, none when no set is produced. -/
def incMainFinalize (state : CrawlState) (now : String) (isFirstRun : Bool)
    (existing newArts : List Article) :
    Option (List Article) × CrawlState :=
  let finalArticles :=
    if isFirstRun then newArts else merge_articles existing newArts
  if finalArticles = [] then
    if isFirstRun then (none, state)
    else (none, { state with lastCrawlTime := some now, firstRun := false })
  else
    (some finalArticles,
      { state with lastCrawlTime := some now,
                   totalArticlesCrawled := finalArticles.length,
                   firstRun := false })

/-- The tail of main in crawl_bjx_qn_incremental_ci.py in CI mode, from
choosing the final list to saving the state. It differs from the
incremental script in the empty case of a later run: the existing
articles are loaded again (the files are unchanged within the run, so
the same list returns), used as the final list, the article files are
written even when empty, and the state update refreshes the timestamp
and the firstRun flag without touching totalArticlesCrawled. -/
def ciMainFinalize (state : CrawlState) (now : String)
    (isFirstRunOrForce : Bool) (existing newArts : List Article) :
    Option (List Article) × CrawlState :=
  let finalArticles :=
    if isFirstRunOrForce then newArts else merge_articles existing newArts
  if finalArticles = [] then
    if isFirstRunOrForce then (none, state)
    else
      (some existing,
        { state with lastCrawlTime := some now, firstRun := false })
  else
    (some finalArticles,
      { state with lastCrawlTime := some now,
                   totalArticlesCrawled := finalArticles.length,
                   firstRun := false })

/-! ### Concrete records used in witnesses and counterexamples -/

/-- A record whose date carries a time of day, so it parses with the
date plus time format but not with the plain date format that the merge
sort key uses. -/
def artA : Article := ⟨"tA", "2024-01-02 03:04:05", "ua"⟩

/-- A record with a plain, much older date. -/
def artB : Article := ⟨"tB", "2020-01-01", "ub"⟩

/-- A concrete cutoff datetime. -/
def cutoffW : DateTime := ⟨2020, 1, 1, 0, 0, 0⟩

/-- A well formed page item dated after cutoffW. -/
def itemW : Item := ⟨true, "tw", "", "hw", "uw", "2024-05-05"⟩

/-- First page item for the linear site example. -/
def itemP1 : Item := ⟨true, "t1", "", "h1", "u1", "2024-01-01"⟩

/-- Second page item for the linear site example. -/
def itemP2 : Item := ⟨true, "t2", "", "h2", "u2", "2024-01-02"⟩

/-! ### Helper lemmas -/

/-- On in range datetimes the Nat key order coincides with the
lexicographic datetime order. -/
theorem dtKey_le_iff {a b : DateTime} (ha : a.InRange) (hb : b.InRange) :
    dtKey a ≤ dtKey b ↔ dtLe a b := by
  obtain ⟨ay, am, ad, ah, ami, as'⟩ := a
  obtain ⟨by', bm, bd, bh, bmi, bs⟩ := b
  simp only [DateTime.InRange] at ha hb
  simp only [dtKey, dtLe, dtLt]
  omega

/-- Strict version of dtKey_le_iff. -/
theorem dtKey_lt_iff {a b : DateTime} (ha : a.InRange) (hb : b.InRange) :
    dtKey a < dtKey b ↔ dtLt a b := by
  obtain ⟨ay, am, ad, ah, ami, as'⟩ := a
  obtain ⟨by', bm, bd, bh, bmi, bs⟩ := b
  simp only [DateTime.InRange] at ha hb
  simp only [dtKey, dtLt]
  omega

/-! ### Stability of the sort

Python guarantees its sort is stable. For insertionSort with mergeRel
the standard statement of stability holds: for each key value the
subsequence of records carrying that key is exactly the one of the
input. -/

theorem filter_orderedInsert_key (k : Nat) (a : Article) :
    ∀ l : List Article,
      (List.orderedInsert mergeRel a l).filter (fun x => sort_key x == k) =
        if sort_key a == k then
          a :: l.filter (fun x => sort_key x == k)
        else l.filter (fun x => sort_key x == k)
  | [] => by
    cases hk : sort_key a == k <;>
      simp [List.orderedInsert, List.filter_cons, hk]
  | b :: l => by
    have ih := filter_orderedInsert_key k a l
    by_cases hab : mergeRel a b
    · have hstep : List.orderedInsert mergeRel a (b :: l) = a :: b :: l := by
        simp [List.orderedInsert, hab]
      rw [hstep]
      by_cases hk : sort_key a == k <;> simp [List.filter_cons, hk]
    · have hstep : List.orderedInsert mergeRel a (b :: l) =
          b :: List.orderedInsert mergeRel a l := by
        simp [List.orderedInsert, hab]
      have hlt : sort_key a < sort_key b := by
        simpa [mergeRel, Nat.not_le] using hab
      rw [hstep]
      by_cases hk : sort_key a == k
      · have hak : sort_key a = k := by simpa using hk
        have hbk : (sort_key b == k) = false := by
          have hne : ¬ sort_key b = k := by omega
          simpa using hne
        simp [List.filter_cons, hbk, ih, hk]
      · simp [List.filter_cons, ih, hk]


/-- Stability of the sort used in merge_articles: for each key value,
sorting preserves the subsequence of records with that key. -/
theorem filter_insertionSort_key (k : Nat) :
    ∀ l : List Article,
      (List.insertionSort mergeRel l).filter (fun x => sort_key x == k) =
        l.filter (fun x => sort_key x == k)
  | [] => rfl
  | a :: l => by
    have ih := filter_insertionSort_key k l
    simp only [List.insertionSort]
    rw [filter_orderedInsert_key, ih]
    cases hk : sort_key a == k <;> simp [List.filter_cons, hk]

/-- A value produced by parseBoundedSeg lies between its bounds. -/
theorem parseBoundedSeg_bounds {cs : List Char} {lo hi v : Nat}
    (h : parseBoundedSeg cs lo hi = some v) : lo ≤ v ∧ v ≤ hi := by
  unfold parseBoundedSeg at h
  split at h
  · split at h
    · rename_i hcond
      simp only [Option.some.injEq] at h
      omega
    · simp at h
  · simp at h

/-- Every datetime produced by the plain date parser is in range, with
zero time fields. -/
theorem parseYmdCore_inRange {cs : List Char} {t : DateTime}
    (h : parseYmdCore cs = some t) :
    t.InRange ∧ t.h = 0 ∧ t.mi = 0 ∧ t.s = 0 ∧ 1 ≤ t.y := by
  unfold parseYmdCore at h
  split at h
  case _ =>
    rename_i x ys ms ds heq
    cases hy : parseYearSeg ys with
    | none => rw [hy] at h; simp at h
    | some y =>
      cases hm : parseBoundedSeg ms 1 12 with
      | none => rw [hy, hm] at h; simp at h
      | some m =>
        cases hd : parseBoundedSeg ds 1 31 with
        | none => rw [hy, hm, hd] at h; simp at h
        | some d =>
          rw [hy, hm, hd] at h
          simp only at h
          have hmle := (parseBoundedSeg_bounds hm).2
          have hdle := (parseBoundedSeg_bounds hd).2
          split at h
          case _ hv =>
            simp only [Option.some.injEq] at h
            subst h
            exact ⟨⟨hmle, hdle, by simp, by simp, by simp⟩,
              rfl, rfl, rfl, hv.1⟩
          case _ => simp at h
  case _ => simp at h

/-- The sort key of a record whose date matches the plain date format is
the key of the parsed date. -/
theorem sort_key_of_parse {a : Article} {t : DateTime}
    (h : parse_ymd a.date = some t) : sort_key a = dtKey t := by
  unfold sort_key
  rw [h]

/-- The sort key of a record whose date does not match the plain date
format is the key of the minimum datetime. -/
theorem sort_key_of_unparseable {a : Article}
    (h : parse_ymd a.date = none) : sort_key a = dtKey dtMin := by
  unfold sort_key
  rw [h]

/-- The crawl loop fetches at most as many pages as it has fuel. -/
theorem crawlGo_pages_le (site : Site) (cutoff : Option DateTime) :
    ∀ (fuel : Nat) (url : String) (acc : List Article),
      (crawlGo site cutoff fuel url acc).2 ≤ fuel
  | 0, _, _ => Nat.le_refl 0
  | fuel + 1, url, acc => by
    unfold crawlGo
    split
    · exact Nat.zero_le _
    · cases hsite : site url with
      | none => exact Nat.le_add_left 1 fuel
      | some pr =>
        obtain ⟨items, next⟩ := pr
        simp only
        split
        · exact Nat.le_add_left 1 fuel
        · cases next with
          | none => exact Nat.le_add_left 1 fuel
          | some nurl =>
            simpa using Nat.succ_le_succ (crawlGo_pages_le site cutoff fuel nurl _)

/-- When the page under the current url parses to no articles and a
cutoff is active, the loop returns the accumulator and counts only this
page. -/
theorem crawlGo_stop_of_empty (site : Site) (c : DateTime) (fuel : Nat)
    (url : String) (acc : List Article) (items : List Item)
    (next : Option String) (hs : site url = some (items, next))
    (hu : url ≠ "") (hp : parse_articles items (some c) = []) :
    crawlGo site (some c) (fuel + 1) url acc = (acc, 1) := by
  unfold crawlGo
  rw [if_neg hu, hs]
  simp [hp]

/-- Page index urls are nonempty. -/
theorem urlOf_ne_empty (i : Nat) : urlOf i ≠ "" := by
  intro h
  have : (urlOf i).length = 0 := by rw [h]; rfl
  rw [urlOf] at this
  simp [String.length] at this

/-- The length of a page index url recovers the index. -/
theorem urlOf_length (i : Nat) : (urlOf i).length = i + 1 := by
  simp [urlOf, String.length]

/-- Looking up a middle page of a linear site. -/
theorem siteOf_get_lt (pres : List (List Item)) (j : Nat)
    (hlt : j < pres.length) :
    siteOf (pres.map some ++ [none]) (urlOf j)
      = some (pres.get ⟨j, hlt⟩, some (urlOf (j + 1))) := by
  unfold siteOf
  rw [urlOf_length]
  simp only [Nat.add_sub_cancel]
  rw [List.get?_append (by simpa using hlt), List.get?_map,
    List.get?_eq_get hlt]
  have hcond : j + 1 < (pres.map some ++ [none]).length := by
    simp; omega
  simp [hcond, hlt]

/-- Looking up the final failing page of a linear site. -/
theorem siteOf_get_last (pres : List (List Item)) :
    siteOf (pres.map some ++ [none]) (urlOf pres.length) = none := by
  unfold siteOf
  rw [urlOf_length]
  simp only [Nat.add_sub_cancel]
  rw [List.get?_append_right (by simp)]
  simp

/-- Running the crawl loop over a linear site whose pages all parse to
at least one article until the fetch of the last page fails: starting
at page j with enough fuel, the loop returns the accumulator extended
by the articles of pages j onward and counts the remaining pages
including the failing one. -/
theorem crawlGo_linear_fail (pres : List (List Item))
    (cutoff : Option DateTime)
    (hne : ∀ p ∈ pres, parse_articles p cutoff ≠ []) :
    ∀ (fuel j : Nat) (acc : List Article), j ≤ pres.length →
      pres.length + 1 - j ≤ fuel →
      crawlGo (siteOf (pres.map some ++ [none])) cutoff fuel (urlOf j) acc =
        (acc ++ ((pres.drop j).map (fun p => parse_articles p cutoff)).join,
          pres.length + 1 - j) := by
  intro fuel
  induction fuel with
  | zero => intro j acc hj hf; omega
  | succ f ih =>
    intro j acc hj hf
    have hurl : urlOf j ≠ "" := urlOf_ne_empty j
    rcases Nat.lt_or_ge j pres.length with hlt | hge
    · have hpnil : parse_articles (pres.get ⟨j, hlt⟩) cutoff ≠ [] :=
        hne _ (List.get_mem pres j hlt)
      have ihh := ih (j + 1)
        (acc ++ parse_articles (pres.get ⟨j, hlt⟩) cutoff)
        (by omega) (by omega)
      unfold crawlGo
      rw [if_neg hurl, siteOf_get_lt pres j hlt]
      simp only [if_neg (fun h => hpnil (And.left h))]
      rw [ihh, List.drop_eq_get_cons hlt]
      simp only [List.map_cons, List.join_cons, List.append_assoc]
      have hcount : pres.length + 1 - (j + 1) + 1 = pres.length + 1 - j := by
        omega
      rw [hcount]
    · have hj' : j = pres.length := Nat.le_antisymm hj hge
      subst hj'
      unfold crawlGo
      rw [if_neg hurl, siteOf_get_last pres]
      simp [List.drop_length]

/-- When every attempt yields a short successful body, the incremental
retry loop ends by returning the body of the final attempt. -/
theorem fetchIncGo_all_short (env : Nat → FetchOutcome) (retries : Nat)
    (body : String)
    (hshort : ∀ i, i < retries →
      ∃ b, env i = .success b ∧ b.length < 100)
    (hlast : env (retries - 1) = .success body) :
    ∀ left, 1 ≤ left → left ≤ retries →
      fetchIncGo env retries left = .ok body
  | 0, h1, _ => absurd h1 (by omega)
  | 1, _, hle => by
    have hidx : retries - (0 + 1) = retries - 1 := rfl
    unfold fetchIncGo
    rw [hidx, hlast]
    obtain ⟨b, hb, hblen⟩ := hshort (retries - 1) (by omega)
    rw [hlast] at hb
    obtain rfl : body = b := by
      simpa using hb
    simp [hblen]
  | left + 2, _, hle => by
    obtain ⟨b, hb, hblen⟩ := hshort (retries - (left + 2)) (by omega)
    unfold fetchIncGo
    rw [hb]
    simp only [hblen, if_pos, Nat.zero_lt_succ]
    exact fetchIncGo_all_short env retries body hshort hlast (left + 1)
      (by omega) (by omega)

/-- When every attempt yields a short successful body, the legacy retry
loop raises the short response exception on the final attempt. -/
theorem fetchLegacyGo_all_short (env : Nat → FetchOutcome) (retries : Nat)
    (hshort : ∀ i, i < retries →
      ∃ b, env i = .success b ∧ b.length < 100) :
    ∀ left, 1 ≤ left → left ≤ retries →
      fetchLegacyGo env retries left =
        .error "Response too short - possible block"
  | 0, h1, _ => absurd h1 (by omega)
  | 1, _, hle => by
    obtain ⟨b, hb, hblen⟩ := hshort (retries - 1) (by omega)
    unfold fetchLegacyGo
    rw [show retries - (0 + 1) = retries - 1 from rfl, hb]
    simp [hblen]
  | left + 2, _, hle => by
    obtain ⟨b, hb, hblen⟩ := hshort (retries - (left + 2)) (by omega)
    unfold fetchLegacyGo
    rw [hb]
    simp only [hblen, if_pos, Nat.zero_lt_succ]
    exact fetchLegacyGo_all_short env retries hshort (left + 1)
      (by omega) (by omega)

/-- merge_articles never returns an empty list from a nonempty existing
list, since its output is a permutation of the existing list plus the
kept new records. -/
theorem merge_articles_eq_nil {existing new_arts : List Article}
    (h : merge_articles existing new_arts = []) : existing = [] := by
  have hperm : (merge_articles existing new_arts).Perm
      (existing ++ unique_new_articles existing new_arts) :=
    List.perm_insertionSort mergeRel _
  rw [h] at hperm
  have h2 : existing ++ unique_new_articles existing new_arts = [] :=
    hperm.symm.eq_nil
  exact (List.append_eq_nil.1 h2).1

/-- A record accepted by the per item pipeline under a cutoff keeps the
item date, and either that date is empty or the newer than cutoff test
succeeded on it. -/
theorem process_item_some {c : DateTime} {it : Item} {r : Article}
    (h : process_item (some c) it = some r) :
    r.date = it.dateText ∧
      (it.dateText = "" ∨
        is_article_newer_than_cutoff it.dateText c = true) := by
  simp only [process_item] at h
  repeat' split at h
  any_goals exact Option.noConfusion h
  all_goals
    rename_i hguard
    injection h with h2
    subst h2
    refine ⟨rfl, ?_⟩
    by_cases hd : it.dateText = ""
    · exact Or.inl hd
    · right
      rcases not_and_or.1 hguard with h' | h'
      · exact absurd (not_not.1 h') hd
      · simpa using h'

/-! ### Claim theorems -/

/-- C1: the claim that merge_articles never returns two records with
the same url, and that merging the empty list with new records carrying
urls a, b, b, c yields three records, is contradicted by the code: the
set of existing urls is never extended inside the dedup loop, so both
records with url b survive and the result has four records. This
theorem evaluates the embedded merge at that failing input. -/
theorem merge_articles_keeps_duplicate_new_urls :
    (merge_articles []
      [⟨"ta", "2024-01-01", "a"⟩, ⟨"tb1", "2024-01-01", "b"⟩,
       ⟨"tb2", "2024-01-01", "b"⟩, ⟨"tc", "2024-01-01", "c"⟩]).map
        (fun r => r.url) = ["a", "b", "b", "c"] := by decide

/-- C2 counterexample: merging the empty list with a record dated with
a time of day and a record with a plain older date lists the older
record first, although both dates parse under parse_article_date and
the parsed date of the earlier listed record is strictly smaller: the
merge sort key only accepts the plain date format and sends the date
plus time record to the minimum position. -/
theorem merge_sort_invariant_counterexample :
    merge_articles [] [artA, artB] = [artB, artA]
    ∧ parse_article_date artB.date = some ⟨2020, 1, 1, 0, 0, 0⟩
    ∧ parse_article_date artA.date = some ⟨2024, 1, 2, 3, 4, 5⟩
    ∧ ¬ dtLe ⟨2024, 1, 2, 3, 4, 5⟩ ⟨2020, 1, 1, 0, 0, 0⟩ := by decide

/-- C2 amended: in every list returned by merge_articles, records are
ordered by descending sort key, hence for every pair of records whose
dates parse in the plain YYYY-MM-DD format of the sort key the earlier
record has the later or equal parsed date; a record whose date fails
the plain format, including a date with a time of day, is keyed as the
minimum date; and for each key value the relative order of records,
existing before kept new ones, is preserved. -/
theorem merge_sort_invariant_amended (existing new_arts : List Article) :
    ((merge_articles existing new_arts).Pairwise
        (fun a b => sort_key b ≤ sort_key a))
    ∧ ((merge_articles existing new_arts).Pairwise
        (fun a b => ∀ da db, parse_ymd a.date = some da →
          parse_ymd b.date = some db → dtLe db da))
    ∧ (∀ r : Article, parse_ymd r.date = none → sort_key r = dtKey dtMin)
    ∧ (∀ k : Nat,
        (merge_articles existing new_arts).filter (fun r => sort_key r == k)
          = (existing ++ unique_new_articles existing new_arts).filter
              (fun r => sort_key r == k)) := by
  have hsorted : (merge_articles existing new_arts).Pairwise
      (fun a b => sort_key b ≤ sort_key a) :=
    List.sorted_insertionSort mergeRel
      (existing ++ unique_new_articles existing new_arts)
  refine ⟨hsorted, ?_, ?_, ?_⟩
  · refine hsorted.imp ?_
    intro a b hab da db hda hdb
    rw [sort_key_of_parse hda, sort_key_of_parse hdb] at hab
    have hda' := (parseYmdCore_inRange hda).1
    have hdb' := (parseYmdCore_inRange hdb).1
    exact (dtKey_le_iff hdb' hda').1 hab
  · intro r hr
    exact sort_key_of_unparseable hr
  · intro k
    exact filter_insertionSort_key k
      (existing ++ unique_new_articles existing new_arts)

/-- C2 witness: the amended theorem applied to a concrete merge; a
record whose date fails the plain date format receives the minimum date
key. -/
theorem merge_sort_invariant_amended_witness :
    sort_key ⟨"t", "not-a-date", "u"⟩ = dtKey dtMin := by
  have h := (merge_sort_invariant_amended [] []).2.2.1
  exact h ⟨"t", "not-a-date", "u"⟩ (by decide)

/-- C3: every record accepted into the filtered result of
parse_articles under a cutoff either has a date that parses strictly
later than the cutoff, or a date, possibly empty, on which
parse_article_date fails. -/
theorem parse_articles_cutoff_correct (items : List Item) (c : DateTime)
    (r : Article) (hr : r ∈ parse_articles items (some c)) :
    parse_article_date r.date = none ∨
      ∃ d, parse_article_date r.date = some d ∧ dtLt c d := by
  obtain ⟨it, hit, hpi⟩ := List.mem_filterMap.1 hr
  obtain ⟨hdate, hcases⟩ := process_item_some hpi
  rw [hdate]
  rcases hcases with hd | hnew
  · left
    rw [hd]
    decide
  · unfold is_article_newer_than_cutoff at hnew
    cases hparse : parse_article_date it.dateText with
    | none => exact Or.inl rfl
    | some d =>
      rw [hparse] at hnew
      exact Or.inr ⟨d, rfl, of_decide_eq_true hnew⟩

/-- C3 witness: the cutoff correctness applied to a concrete one item
page and cutoff. -/
theorem parse_articles_cutoff_correct_witness :
    parse_article_date (Article.mk "tw" "2024-05-05" "uw").date = none ∨
      ∃ d, parse_article_date (Article.mk "tw" "2024-05-05" "uw").date
        = some d ∧ dtLt cutoffW d :=
  parse_articles_cutoff_correct [itemW] cutoffW ⟨"tw", "2024-05-05", "uw"⟩
    (by decide)

/-- C4: for every site, start url, cutoff and page cap, the crawl
fetches at most the cap many pages, however deep the pagination goes. -/
theorem crawl_incremental_page_bound (site : Site) (startUrl : String)
    (cutoff : Option DateTime) (maxPages : Nat) :
    (crawl_incremental site startUrl cutoff maxPages).2 ≤ maxPages :=
  crawlGo_pages_le site cutoff maxPages startUrl []

/-- C5: on a linear site whose first pages each yield articles and
whose fetch fails at page k, within the page cap, the crawl returns
exactly the articles of pages one through k minus one, counting k
fetched pages. -/
theorem crawl_incremental_partial_failure (pres : List (List Item))
    (cutoff : Option DateTime) (maxPages : Nat)
    (hN : pres.length < maxPages)
    (hne : ∀ p ∈ pres, parse_articles p cutoff ≠ []) :
    crawl_incremental (siteOf (pres.map some ++ [none])) (urlOf 0) cutoff
        maxPages
      = ((pres.map (fun p => parse_articles p cutoff)).join,
          pres.length + 1) := by
  have h := crawlGo_linear_fail pres cutoff hne maxPages 0 []
    (by omega) (by omega)
  simpa using h

/-- C5 witness: a two page site followed by a failing fetch on page
three returns the two articles of the first two pages. -/
theorem crawl_incremental_partial_failure_witness :
    crawl_incremental (siteOf ([[itemP1], [itemP2]].map some ++ [none]))
        (urlOf 0) none 5
      = ([⟨"t1", "2024-01-01", "u1"⟩, ⟨"t2", "2024-01-02", "u2"⟩], 3) := by
  have h := crawl_incremental_partial_failure [[itemP1], [itemP2]] none 5
    (by decide) (by decide)
  exact h.trans (by decide)

/-- C6: whenever a cutoff is active and the page under the current url
parses to zero in range records, the crawl fetches no further page: the
loop returns at once with only that page counted, and likewise from the
start of a run. -/
theorem crawl_incremental_stops_on_empty_filtered_page :
    (∀ (site : Site) (c : DateTime) (fuel : Nat) (url : String)
        (acc : List Article) (items : List Item) (next : Option String),
        site url = some (items, next) → url ≠ "" →
        parse_articles items (some c) = [] →
        crawlGo site (some c) (fuel + 1) url acc = (acc, 1))
    ∧ (∀ (site : Site) (c : DateTime) (maxPages : Nat) (url : String)
        (items : List Item) (next : Option String),
        site url = some (items, next) → url ≠ "" → 1 ≤ maxPages →
        parse_articles items (some c) = [] →
        crawl_incremental site url (some c) maxPages = ([], 1)) := by
  refine ⟨fun site c fuel url acc items next hs hu hp =>
    crawlGo_stop_of_empty site c fuel url acc items next hs hu hp, ?_⟩
  intro site c maxPages url items next hs hu hm hp
  cases maxPages with
  | zero => omega
  | succ m =>
    exact crawlGo_stop_of_empty site c m url [] items next hs hu hp

/-- C6 witness: a concrete site whose only page filters to nothing
under a cutoff stops the crawl after one page. -/
theorem crawl_incremental_stops_on_empty_filtered_page_witness :
    crawl_incremental (fun _ => some ([], none)) "pg" (some cutoffW) 3
      = ([], 1) :=
  crawl_incremental_stops_on_empty_filtered_page.2
    (fun _ => some ([], none)) cutoffW 3 "pg" [] none rfl (by decide)
    (by omega) rfl

/-- C7: merging with new records whose urls all already occur among the
existing urls yields no growth, the url set of the result equals the
url set of the existing list. -/
theorem merge_articles_no_growth_on_known_urls
    (existing new_arts : List Article)
    (h : ∀ a ∈ new_arts, a.url ∈ existing_urls existing) :
    ∀ u, (u ∈ (merge_articles existing new_arts).map (fun r => r.url) ↔
      u ∈ existing.map (fun r => r.url)) := by
  have huniq : unique_new_articles existing new_arts = [] := by
    simp only [unique_new_articles, List.filter_eq_nil]
    intro a ha
    have hmem := h a ha
    simp [List.elem_iff, hmem]
  have hperm : (merge_articles existing new_arts).Perm existing := by
    unfold merge_articles
    rw [huniq, List.append_nil]
    exact List.perm_insertionSort mergeRel existing
  intro u
  exact (hperm.map (fun r => r.url)).mem_iff

/-- C7 witness: merging a singleton list with a new record under the
same url leaves the url set unchanged. -/
theorem merge_articles_no_growth_on_known_urls_witness :
    "ua" ∈ (merge_articles [⟨"t", "2024-01-01", "ua"⟩]
        [⟨"t2", "2024-01-02", "ua"⟩]).map (fun r => r.url) ↔
      "ua" ∈ [Article.mk "t" "2024-01-01" "ua"].map (fun r => r.url) :=
  merge_articles_no_growth_on_known_urls [⟨"t", "2024-01-01", "ua"⟩]
    [⟨"t2", "2024-01-02", "ua"⟩] (by decide) "ua"

/-- C10: merge_articles never drops existing records: the output is a
permutation of the existing list extended by a sublist of the new list,
so in particular every existing record, duplicate urls included, occurs
in the output. -/
theorem merge_articles_preserves_existing (existing new_arts : List Article) :
    (merge_articles existing new_arts).Perm
        (existing ++ unique_new_articles existing new_arts)
    ∧ (unique_new_articles existing new_arts).Sublist new_arts
    ∧ ∀ a, a ∈ existing → a ∈ merge_articles existing new_arts := by
  refine ⟨List.perm_insertionSort mergeRel _, List.filter_sublist _, ?_⟩
  intro a ha
  exact ((List.perm_insertionSort mergeRel _).mem_iff).2
    (List.mem_append_left _ ha)

/-- C10 witness: an existing record with a duplicated url is kept in
the merged output. -/
theorem merge_articles_preserves_existing_witness :
    Article.mk "t" "2024-01-01" "ua" ∈
      merge_articles
        [⟨"t", "2024-01-01", "ua"⟩, ⟨"t dup", "2024-01-03", "ua"⟩]
        [⟨"t2", "2024-01-02", "ub"⟩] :=
  (merge_articles_preserves_existing
      [⟨"t", "2024-01-01", "ua"⟩, ⟨"t dup", "2024-01-03", "ua"⟩]
      [⟨"t2", "2024-01-02", "ub"⟩]).2.2
    ⟨"t", "2024-01-01", "ua"⟩ (by decide)

/-- C8 counterexample: the incremental fetch_html does not fail when
the retry budget is exhausted on short bodies; with every attempt
answering a body of five characters and the default five retries it
returns that short body. -/
theorem fetch_html_short_body_counterexample :
    fetch_html_incremental (fun _ => .success "short") 5
      = .ok "short" := rfl

/-- C8 amended: when every attempt up to the budget yields a successful
body shorter than one hundred characters, the legacy fetcher of
crawl_bjx_qn.py fails after exhausting its retries, while the
incremental fetcher of crawl_bjx_qn_incremental.py returns the short
body of the final attempt instead of failing. -/
theorem fetch_html_retry_exhaustion_amended (env : Nat → FetchOutcome)
    (retries : Nat) (body : String) (h1 : 1 ≤ retries)
    (hshort : ∀ i, i < retries →
      ∃ b, env i = .success b ∧ b.length < 100)
    (hlast : env (retries - 1) = .success body) :
    fetch_html_incremental env retries = .ok body
    ∧ fetch_html_legacy env retries
        = .error "Response too short - possible block" :=
  ⟨fetchIncGo_all_short env retries body hshort hlast retries h1
      (Nat.le_refl retries),
    fetchLegacyGo_all_short env retries hshort retries h1
      (Nat.le_refl retries)⟩

/-- C8 witness: the amended theorem at a concrete environment where
both attempts return a one character body. -/
theorem fetch_html_retry_exhaustion_amended_witness :
    fetch_html_incremental (fun _ => .success "x") 2 = .ok "x"
    ∧ fetch_html_legacy (fun _ => .success "x") 2
        = .error "Response too short - possible block" :=
  fetch_html_retry_exhaustion_amended (fun _ => .success "x") 2 "x"
    (by omega) (fun i _ => ⟨"x", rfl, by decide⟩) rfl

/-- C9 counterexample: a CI run that finds no new articles re emits a
final article set, here empty, while the persisted
totalArticlesCrawled keeps its previous value five, which differs from
the size zero of the emitted set. -/
theorem total_articles_crawled_counterexample :
    (ciMainFinalize ⟨some "t0", 5, false, none⟩ "t1" false [] []).1
        = some []
    ∧ (ciMainFinalize ⟨some "t0", 5, false, none⟩ "t1" false []
        []).2.totalArticlesCrawled = 5 := by decide

/-- C9 amended: whenever the incremental entry point produces a final
set, the saved totalArticlesCrawled equals its size; the CI entry point
does the same on its success path, but a CI run that re emits a final
set because no new articles were found, a set necessarily empty,
leaves totalArticlesCrawled at its previous, possibly different,
value. -/
theorem total_articles_crawled_amended (st : CrawlState) (now : String)
    (fr : Bool) (existing new_arts : List Article) :
    (∀ s, (incMainFinalize st now fr existing new_arts).1 = some s →
      (incMainFinalize st now fr existing new_arts).2.totalArticlesCrawled
        = s.length)
    ∧ (∀ s, (ciMainFinalize st now fr existing new_arts).1 = some s →
        s ≠ [] →
        (ciMainFinalize st now fr existing new_arts).2.totalArticlesCrawled
          = s.length)
    ∧ (∀ s, (ciMainFinalize st now fr existing new_arts).1 = some s →
        s = [] →
        (ciMainFinalize st now fr existing new_arts).2.totalArticlesCrawled
          = st.totalArticlesCrawled) := by
  refine ⟨?_, ?_, ?_⟩
  · intro s hs
    cases fr with
    | true =>
      by_cases hnil : new_arts = []
      · simp [incMainFinalize, hnil] at hs
      · simp only [incMainFinalize] at hs ⊢
        simp [hnil] at hs ⊢
        subst hs
        rfl
    | false =>
      by_cases hnil : merge_articles existing new_arts = []
      · simp [incMainFinalize, hnil] at hs
      · simp only [incMainFinalize] at hs ⊢
        simp [hnil] at hs ⊢
        subst hs
        rfl
  · intro s hs hne
    cases fr with
    | true =>
      by_cases hnil : new_arts = []
      · simp [ciMainFinalize, hnil] at hs
      · simp only [ciMainFinalize] at hs ⊢
        simp [hnil] at hs ⊢
        subst hs
        rfl
    | false =>
      by_cases hnil : merge_articles existing new_arts = []
      · simp only [ciMainFinalize] at hs
        simp [hnil] at hs
        have hes : s = [] := by
          rw [← hs]
          exact merge_articles_eq_nil hnil
        exact absurd hes hne
      · simp only [ciMainFinalize] at hs ⊢
        simp [hnil] at hs ⊢
        subst hs
        rfl
  · intro s hs hnil2
    cases fr with
    | true =>
      by_cases hnil : new_arts = []
      · simp [ciMainFinalize, hnil] at hs
      · simp only [ciMainFinalize] at hs
        simp [hnil] at hs
        exact absurd (hs.trans hnil2) hnil
    | false =>
      by_cases hnil : merge_articles existing new_arts = []
      · simp only [ciMainFinalize] at hs ⊢
        simp [hnil] at hs ⊢
      · simp only [ciMainFinalize] at hs
        simp [hnil] at hs
        exact absurd (hs.trans hnil2) hnil

/-- C9 witness: the amended theorem applied to a concrete first run
that produced one article; the saved counter equals the size of that
final set. -/
theorem total_articles_crawled_amended_witness :
    (incMainFinalize defaultCrawlState "t" true []
        [⟨"a", "2024-01-01", "u"⟩]).2.totalArticlesCrawled
      = [Article.mk "a" "2024-01-01" "u"].length := by
  have h := (total_articles_crawled_amended defaultCrawlState "t" true []
    [⟨"a", "2024-01-01", "u"⟩]).1
  exact h [⟨"a", "2024-01-01", "u"⟩] (by decide)

end BjxCrawl
